import Mathlib

/-!
Verification of the bitpeer repository core against its specification.

The development shallowly embeds the three core subsystems:
- the paginated collector (`src/bitpeer/collector/bybit_p2p.py`),
- the schema-agnostic extractor (`src/bitpeer/parser/bybit_p2p.py`),
- the best-price selection engine (`src/bitpeer/metrics/best_price.py`).

JSON values are modelled by an inductive `Json` mirroring the types
`json.loads` can produce (Python `None` is collapsed into `Json.null`,
which is faithful because every use site treats a missing key and a
stored `None` alike after `_first_present`).  Python floats are modelled
as rationals: none of the verified claims depends on floating-point
rounding, only on comparisons and control flow.  Machine integers do not
occur (Python ints are unbounded), so `Int` is used directly.
-/

namespace BitPeer

/-- JSON value as produced by Python's `json.loads`.  `int` and `float`
are kept separate, as Python does. -/
inductive Json where
  | null
  | bool (b : Bool)
  | int (n : Int)
  | float (q : ℚ)
  | str (s : String)
  | arr (xs : List Json)
  | obj (fields : List (String × Json))

/-- A Python dict with string keys, as a key/value list (first binding wins,
matching dict-lookup on the unique-key dicts `json.loads` produces). -/
abbrev JObj := List (String × Json)

/-- `d.get(k)` (Python `None` collapsed to `Json.null`). -/
def getJ (d : JObj) (k : String) : Json :=
  match d.find? (fun kv => kv.1 == k) with
  | some kv => kv.2
  | none => Json.null

/-- `d.get(k, dflt)`. -/
def getJD (d : JObj) (k : String) (dflt : Json) : Json :=
  match d.find? (fun kv => kv.1 == k) with
  | some kv => kv.2
  | none => dflt

/-- `k in d`. -/
def containsKey (d : JObj) (k : String) : Bool :=
  d.any (fun kv => kv.1 == k)

/-- Python truthiness of a JSON value. -/
def pyTruthy : Json → Bool
  | .null => false
  | .bool b => b
  | .int n => n != 0
  | .float q => q != 0
  | .str s => !s.isEmpty
  | .arr xs => !xs.isEmpty
  | .obj fs => !fs.isEmpty

/-- Python `a or b`: `a` if truthy, else `b`. -/
def pyOr (a b : Json) : Json :=
  if pyTruthy a then a else b

/-- `isinstance(v, dict)` view. -/
def asObj? : Json → Option JObj
  | .obj fs => some fs
  | _ => none

/-- `isinstance(v, dict)` test. -/
def isObjJ : Json → Bool
  | .obj _ => true
  | _ => false

/-! ### Character-level string helpers

Python string primitives (`str.lower`, `str.strip`, number parsing) are
embedded on the character-list representation so that every definition is
executable by plain reduction. -/

/-- Python `str.lower()` (ASCII case mapping; header names are ASCII). -/
def pyLower (s : String) : String :=
  String.mk (s.data.map Char.toLower)

/-- Python `str.strip()`: drop leading and trailing whitespace. -/
def stripWsChars (cs : List Char) : List Char :=
  ((cs.dropWhile Char.isWhitespace).reverse.dropWhile Char.isWhitespace).reverse

/-- Numeric value of a digit string. -/
def digitsVal (cs : List Char) : Nat :=
  cs.foldl (fun a c => a * 10 + (c.toNat - 48)) 0

/-- A nonempty all-digit string, parsed. -/
def parseDigits? (cs : List Char) : Option Nat :=
  if !cs.isEmpty && cs.all Char.isDigit then some (digitsVal cs) else none

/-- Python `int(s)` on a string: strip whitespace, optional sign, digits.
(Underscore digit grouping, an exotic Python extension, is not modelled;
no claim depends on it.) -/
def pyIntOfString (s : String) : Option Int :=
  match stripWsChars s.data with
  | '-' :: rest => (parseDigits? rest).map (fun n => -(n : Int))
  | '+' :: rest => (parseDigits? rest).map (fun n => (n : Int))
  | cs => (parseDigits? cs).map (fun n => (n : Int))

/-- Unsigned decimal literal `digits [. digits]` with at least one digit. -/
def parseDecimal? (cs : List Char) : Option ℚ :=
  let ip := cs.takeWhile Char.isDigit
  let rest := cs.dropWhile Char.isDigit
  match rest with
  | [] => if ip.isEmpty then none else some ((digitsVal ip : ℚ))
  | '.' :: fp =>
      if fp.all Char.isDigit && !(ip.isEmpty && fp.isEmpty) then
        some ((digitsVal ip : ℚ) + (digitsVal fp : ℚ) / ((10 : ℚ) ^ fp.length))
      else none
  | _ => none

/-- Python `float(s)`: strip whitespace, optional sign, decimal literal.
(Exponent, `inf` and `nan` forms are not modelled; no claim depends on
them.) -/
def pyFloatOfString (s : String) : Option ℚ :=
  match stripWsChars s.data with
  | '-' :: rest => (parseDecimal? rest).map (fun q => -q)
  | '+' :: rest => parseDecimal? rest
  | cs => parseDecimal? cs

/-- Python `int(v)` on a JSON value: ints and bools pass, floats truncate
toward zero, strings parse as integer literals; everything else raises
(`none`). -/
def ratTrunc (q : ℚ) : Int :=
  if q < 0 then -((-q).floor) else q.floor

def py_int : Json → Option Int
  | .bool b => some (if b then 1 else 0)
  | .int n => some n
  | .float q => some (ratTrunc q)
  | .str s => pyIntOfString s
  | _ => none

/-- Python `str(v)`.  Scalar cases follow Python; the exact repr text of
container values is not reproduced (no verified claim inspects it). -/
def pyStr : Json → String
  | .null => "None"
  | .bool b => if b then "True" else "False"
  | .int n => toString n
  | .float q => toString q
  | .str s => s
  | .arr _ => "<list>"
  | .obj _ => "<dict>"

/-! ### Data model (`src/bitpeer/models.py`) -/

inductive Side
  | BUY
  | SELL
deriving DecidableEq

/-- The `response_text : Optional[str]` field of a `RawFetchRecord`,
bundled with the outcome of `json.loads` on it: `absent` is Python
`None`; `someText none` is a string that is empty or fails to parse;
`someText (some j)` is a string parsing to `j`.  (An empty string is
falsy at the `if not record.response_text` check and unparseable as
JSON, so both short-circuit paths coincide.) -/
inductive Body
  | absent
  | someText (parsed : Option Json)

/-- `RawFetchRecord` from `models.py` (timestamps are opaque). -/
structure RawFetchRecord where
  ts_utc : Int
  market : String
  fiat : String
  side : Side
  page : Int
  request_url : String
  request_method : String
  request_headers : List (String × String)
  request_body : JObj
  http_status : Option Int
  response_body : Body
  error : Option String

/-- `Offer` from `models.py`; floats are modelled as rationals. -/
structure Offer where
  ts_utc : Int
  asset : String := "USDT"
  fiat : String
  side : Side
  price_fiat_per_usdt : ℚ
  min_fiat : ℚ
  max_fiat : ℚ
  payment_methods : List String
  is_merchant : Option Bool
  rating : Option ℚ
  advertiser_key : Option String
  market : Option String
  page : Option Int
deriving DecidableEq

/-! ### Extractor (`src/bitpeer/parser/bybit_p2p.py`) -/

/-- `_to_float`: tolerant numeric coercion.  A Python bool is an int, so
it coerces; strings have commas removed and whitespace stripped. -/
def to_float : Json → Option ℚ
  | .null => none
  | .bool b => some (if b then 1 else 0)
  | .int n => some ((n : ℚ))
  | .float q => some q
  | .str s => pyFloatOfString (String.mk (s.data.filter (fun c => c != ',')))
  | _ => none

/-- `_first_present`: value of the first key of `keys` present in `d`
(Python `None` when no key is present). -/
def first_present (d : JObj) (keys : List String) : Json :=
  match keys with
  | [] => Json.null
  | k :: rest => if containsKey d k then getJ d k else first_present d rest

/-- `_maybe_dict(a) or _maybe_dict(b) or ... or {}`: first value that is a
nonempty dict (an empty dict is falsy in Python), else the empty dict. -/
def first_truthy_dict : List Json → JObj
  | [] => []
  | x :: rest =>
      match x with
      | .obj fs => if fs.isEmpty then first_truthy_dict rest else fs
      | _ => first_truthy_dict rest

def PRICE_KEYS : List String := ["price", "unitPrice", "priceValue", "rate", "unit_price"]
def MIN_KEYS : List String := ["minAmount", "minFiat", "minOrderAmount", "min", "min_amount"]
def MAX_KEYS : List String := ["maxAmount", "maxFiat", "maxOrderAmount", "max", "max_amount"]
def PAYMENT_KEYS : List String :=
  ["payment", "payments", "paymentMethods", "payment_methods", "payMethods"]
def MERCHANT_KEYS : List String := ["isMerchant", "merchant", "is_merchant"]
def RATING_KEYS : List String := ["rating", "userRating", "user_rating", "score"]
def ADVERTISER_KEYS : List String :=
  ["userId", "uid", "advertiserId", "advertiser_id", "nickName", "nickname"]

/-- `looks_like_offer` from `_extract_offer_items`: has a price-alias key,
or an `adv`/`advertiser` key. -/
def looks_like_offer (d : JObj) : Bool :=
  d.any (fun kv => PRICE_KEYS.contains kv.1) || containsKey d "adv" || containsKey d "advertiser"

/-- Qualifying items among the first 5 dict elements. -/
def qual_count (dicts : List JObj) : Nat :=
  ((dicts.take 5).filter looks_like_offer).length

/-- The in-place acceptance test of `find` on a list node: the first 3
elements are all dicts, and at least 2 of the first 5 dict elements look
like offers; on success the dict elements are returned. -/
def accept_list (xs : List Json) : Option (List JObj) :=
  if !xs.isEmpty && (xs.take 3).all isObjJ then
    let dicts := xs.filterMap asObj?
    if !dicts.isEmpty && decide (2 ≤ qual_count dicts) then some dicts else none
  else none

mutual

/-- The depth-bounded recursive search `find` of `_extract_offer_items`:
at depth 0 nothing is found; a list node is accepted by `accept_list` or
searched element-wise; a dict node is searched value-wise. -/
def find : Nat → Json → Option (List JObj)
  | 0, _ => none
  | Nat.succ d, Json.arr xs =>
      (match accept_list xs with
       | some ds => some ds
       | none => find_list d xs)
  | Nat.succ d, Json.obj fs => find_vals d fs
  | Nat.succ _, _ => none

/-- `for x in obj: res = find(x, depth - 1); if res is not None: return res`. -/
def find_list : Nat → List Json → Option (List JObj)
  | _, [] => none
  | d, x :: rest =>
      (match find d x with
       | some r => some r
       | none => find_list d rest)

/-- `for v in obj.values(): res = find(v, depth - 1); ...`. -/
def find_vals : Nat → List (String × Json) → Option (List JObj)
  | _, [] => none
  | d, kv :: rest =>
      (match find d kv.2 with
       | some r => some r
       | none => find_vals d rest)

end

/-- The well-known-shape fast path of `_extract_offer_items`: a dict
payload with a dict `result` holding a list under one of four keys whose
first 3 elements are all dicts. -/
def well_known_items (payload : Json) : Option (List JObj) :=
  match payload with
  | .obj fields =>
      (match getJ fields "result" with
       | .obj result =>
           ["items", "data", "list", "rows"].findSome? (fun key =>
             match getJ result key with
             | .arr v =>
                 if !v.isEmpty && (v.take 3).all isObjJ then some (v.filterMap asObj?)
                 else none
             | _ => none)
       | _ => none)
  | _ => none

/-- `_extract_offer_items`: well-known shapes first, then `find` with
depth 6, defaulting to the empty list. -/
def extract_offer_items (payload : Json) : List JObj :=
  match well_known_items payload with
  | some items => items
  | none => (find 6 payload).getD []

/-- The payment-name alias chain `p.get("name") or ... or p.get("key")`. -/
def payment_name (p : JObj) : Json :=
  pyOr (getJ p "name") (pyOr (getJ p "paymentMethodName")
    (pyOr (getJ p "identifier") (pyOr (getJ p "id") (getJ p "key"))))

/-- `_extract_payment_methods`: list of strings, list of dicts (name-like
field), or dict (keys); deduplicated keeping order; empty otherwise. -/
def extract_payment_methods (item : JObj) : List String :=
  let raw := first_present item PAYMENT_KEYS
  let methods : List String :=
    match raw with
    | .arr ps =>
        (ps.map (fun p =>
          match p with
          | .str s => [s]
          | .obj pd =>
              let name := payment_name pd
              if pyTruthy name then [pyStr name] else []
          | _ => [])).flatten
    | .obj kvs => kvs.map (fun kv => kv.1)
    | _ => []
  methods.foldl (fun out m => if out.contains m then out else out ++ [m]) []

/-- `adv = _maybe_dict(item.get("adv")) or _maybe_dict(item.get("advertisement")) or {}`. -/
def adv_of (item : JObj) : JObj :=
  first_truthy_dict [getJ item "adv", getJ item "advertisement"]

/-- `advertiser = _maybe_dict(item.get("advertiser")) or _maybe_dict(item.get("user")) or {}`. -/
def advertiser_of (item : JObj) : JObj :=
  first_truthy_dict [getJ item "advertiser", getJ item "user"]

/-- The field-resolution pattern of `parse_raw_fetch`:
`_first_present(sub, keys) or _first_present(item, keys)`. -/
def resolve_field (sub item : JObj) (keys : List String) : Json :=
  pyOr (first_present sub keys) (first_present item keys)

/-- The per-item body of the loop in `parse_raw_fetch`: `none` is the
`continue` on a missing required field. -/
def parse_item (record : RawFetchRecord) (item : JObj) : Option Offer :=
  let adv := adv_of item
  let advertiser := advertiser_of item
  match to_float (resolve_field adv item PRICE_KEYS),
        to_float (resolve_field adv item MIN_KEYS),
        to_float (resolve_field adv item MAX_KEYS) with
  | some price, some min_fiat, some max_fiat =>
      some { ts_utc := record.ts_utc
             fiat := record.fiat
             side := record.side
             price_fiat_per_usdt := price
             min_fiat := min_fiat
             max_fiat := max_fiat
             payment_methods := extract_payment_methods item
             is_merchant :=
               match resolve_field advertiser item MERCHANT_KEYS with
               | Json.null => none
               | raw => some (pyTruthy raw)
             rating := to_float (resolve_field advertiser item RATING_KEYS)
             advertiser_key :=
               match resolve_field advertiser item ADVERTISER_KEYS with
               | Json.null => none
               | raw => some (pyStr raw)
             market := some record.market
             page := some record.page }
  | _, _, _ => none

/-- `parse_raw_fetch`: empty on an absent or unparseable body, otherwise
one offer per item surviving `parse_item`. -/
def parse_raw_fetch (record : RawFetchRecord) : List Offer :=
  match record.response_body with
  | .someText (some payload) => (extract_offer_items payload).filterMap (parse_item record)
  | _ => []

/-! ### Collector (`src/bitpeer/collector/bybit_p2p.py`) -/

def SENSITIVE_HEADERS : List String :=
  ["authorization", "cookie", "x-api-key", "x-csrf-token", "guid", "risktoken", "traceparent"]

/-- `_sanitize_headers`: drop every header whose lowercased name is
sensitive. -/
def sanitize_headers (headers : List (String × String)) : List (String × String) :=
  headers.filter (fun kv => !(SENSITIVE_HEADERS.contains (pyLower kv.1)))

/-- The request context `fetch_market_page` operates in: endpoint
configuration plus the market and page (the body after template
substitution). -/
structure FetchCtx where
  ts : Int
  market_name : String
  fiat : String
  side : Side
  page : Int
  url : String
  method : String
  headers : List (String × String)
  body : JObj

/-- Outcome of the awaited `_request` call inside the `try` block:
either a response (its text bundled with its parse view, plus the HTTP
status), or a raised exception, caught and rendered by `repr`. -/
inductive ReqOutcome
  | ok (body : Option Json) (status : Int)
  | exc (e : String)

/-- `fetch_market_page`: builds the `RawFetchRecord` for one attempt from
the request context and the outcome of the guarded request. -/
def fetch_market_page (ctx : FetchCtx) (out : ReqOutcome) : RawFetchRecord :=
  { ts_utc := ctx.ts
    market := ctx.market_name
    fiat := ctx.fiat
    side := ctx.side
    page := ctx.page
    request_url := ctx.url
    request_method := ctx.method
    request_headers := sanitize_headers ctx.headers
    request_body := ctx.body
    http_status :=
      match out with
      | .ok _ s => some s
      | .exc _ => none
    response_body :=
      match out with
      | .ok p _ => Body.someText p
      | .exc _ => Body.absent
    error :=
      match out with
      | .ok _ _ => none
      | .exc e => some e }

/-- The page-size derivation inside `_derive_total_pages`:
`request_body.get("size", 10)` put through `int`, floored at 1, with 10
as the fallback when coercion raises. -/
def page_size_of (record : RawFetchRecord) : Int :=
  match py_int (getJD record.request_body "size" (Json.int 10)) with
  | some n => max n 1
  | none => 10

/-- The tail of `_derive_total_pages` once a dict `result` is in hand:
coerce `count` with `int` (1 on failure) and divide, rounding up, floored
at 1. -/
def derive_count_pages (record : RawFetchRecord) (result : JObj) : Int :=
  match py_int (getJ result "count") with
  | some total_count => max 1 ⌈(total_count : ℚ) / ((page_size_of record : Int) : ℚ)⌉
  | none => 1

/-- The shape checks of `_derive_total_pages` on a parsed payload:
`payload.get("result") if isinstance(payload, dict) else None`, then 1
unless the result is a dict. -/
def derive_from_payload (record : RawFetchRecord) (payload : Json) : Int :=
  match payload with
  | .obj fields =>
      (match getJ fields "result" with
       | .obj result => derive_count_pages record result
       | _ => 1)
  | _ => 1

/-- `_derive_total_pages`: 1 unless the page-1 body parses to a dict with
a dict `result` whose `count` coerces with `int`; then
`max(1, ceil(count / page_size))`. -/
def derive_total_pages (record : RawFetchRecord) : Int :=
  match record.response_body with
  | .someText (some payload) => derive_from_payload record payload
  | _ => 1

/-- The fixed safety cap in `collect_once`. -/
def safety_cap : Int := 200

/-- The page budget computed in `collect_once`:
`min(total_pages, max_pages, safety_cap)` when the manual cap is
positive, else `min(total_pages, safety_cap)`. -/
def pages_to_fetch (total_pages max_pages : Int) : Int :=
  if 0 < max_pages then min (min total_pages max_pages) safety_cap
  else min total_pages safety_cap

/-- Python `range(lo, hi)` over unbounded integers. -/
def intRangeAux : Nat → Int → List Int
  | 0, _ => []
  | n + 1, lo => lo :: intRangeAux n (lo + 1)

def intRange (lo hi : Int) : List Int :=
  intRangeAux (hi - lo).toNat lo

/-- The pages beyond page 1 spawned by `collect_once`:
`range(2, pages_to_fetch + 1)`, empty when the budget is 1 or less. -/
def extra_pages (pages : Int) : List Int :=
  if pages ≤ 1 then [] else intRange 2 (pages + 1)

/-- All pages fetched for one market in one cycle: page 1 always, then
the extra pages under the budget. -/
def fetched_pages (total_pages max_pages : Int) : List Int :=
  1 :: extra_pages (pages_to_fetch total_pages max_pages)

/-! ### Price engine (`src/bitpeer/metrics/best_price.py`) -/

/-- `Constraints` (the caller-supplied constraint set). -/
structure Constraints where
  payment_methods_any : Option (List String) := none
  merchant_only : Bool := false
  min_rating : ℚ := 0
deriving DecidableEq

structure BestSingleResult where
  offer : Offer
  price_fiat_per_usdt : ℚ
deriving DecidableEq

inductive Direction
  | buy_usdt
  | sell_usdt
deriving DecidableEq

/-- Python truthiness of the `payment_methods_any` optional set
(`if c.payment_methods_any:`): `None` and the empty set are falsy. -/
def truthy_pm (pm : Option (List String)) : Bool :=
  match pm with
  | none => false
  | some l => !l.isEmpty

/-- `m in c.payment_methods_any` (vacuously false on `None`; that case is
unreachable behind the truthiness guard). -/
def pm_member (pm : Option (List String)) (m : String) : Bool :=
  match pm with
  | none => false
  | some l => l.contains m

/-- `_passes_constraints`. -/
def passes_constraints (offer : Offer) (c : Constraints) : Bool :=
  if c.merchant_only && !(offer.is_merchant == some true) then false
  else if (match offer.rating with
           | some r => decide (r < c.min_rating)
           | none => false) then false
  else if truthy_pm c.payment_methods_any &&
          !(offer.payment_methods.any (fun m => pm_member c.payment_methods_any m)) then false
  else true

/-- `_executable_for_fiat_amount`. -/
def executable_for_fiat_amount (offer : Offer) (amount_fiat : ℚ) : Bool :=
  decide (offer.min_fiat ≤ amount_fiat ∧ amount_fiat ≤ offer.max_fiat)

/-- `_executable_for_usdt_amount`. -/
def executable_for_usdt_amount (offer : Offer) (amount_usdt : ℚ) : Bool :=
  decide (offer.min_fiat ≤ amount_usdt * offer.price_fiat_per_usdt ∧
          amount_usdt * offer.price_fiat_per_usdt ≤ offer.max_fiat)

/-- The candidate filter of `best_single`'s loop (the chain of
`continue`s). -/
def cand_pred (direction : Direction) (amount : ℚ) (c : Constraints) (offer : Offer) : Bool :=
  passes_constraints offer c &&
    match direction with
    | .buy_usdt => (offer.side == Side.SELL) && executable_for_fiat_amount offer amount
    | .sell_usdt => (offer.side == Side.BUY) && executable_for_usdt_amount offer amount

/-- Python `min(xs, key = key)`: keeps the first element, replacing it
only on a strictly smaller key, so the first minimum wins ties. -/
def pyMin {α : Type} (key : α → ℚ) (x : α) (xs : List α) : α :=
  xs.foldl (fun best o => if key o < key best then o else best) x

/-- Python `max(xs, key = key)`: replaces only on a strictly larger key,
so the first maximum wins ties. -/
def pyMax {α : Type} (key : α → ℚ) (x : α) (xs : List α) : α :=
  xs.foldl (fun best o => if key best < key o then o else best) x

/-- `best_single`. -/
def best_single (offers : List Offer) (direction : Direction) (amount : ℚ)
    (c : Constraints) : Option BestSingleResult :=
  match offers.filter (cand_pred direction amount c) with
  | [] => none
  | x :: xs =>
      let best : Offer :=
        match direction with
        | .buy_usdt => pyMin Offer.price_fiat_per_usdt x xs
        | .sell_usdt => pyMax Offer.price_fiat_per_usdt x xs
      some { offer := best, price_fiat_per_usdt := best.price_fiat_per_usdt }

/-- Modelled from the spec: claim C5's reading of field resolution, under
which the advertisement sub-object takes priority whenever it contains
any alias key for the field, regardless of the value stored under that
key.  Used only to compare against the code's `resolve_field`. -/
def spec_first_from_adv_then_item (sub item : JObj) (keys : List String) : Json :=
  if keys.any (fun k => containsKey sub k) then first_present sub keys
  else first_present item keys

/-! ## Theorems -/

/-- Every branch of the pagination derivation is at least one page. -/
theorem derive_count_pages_ge_one (record : RawFetchRecord) (result : JObj) :
    1 ≤ derive_count_pages record result := by
  unfold derive_count_pages
  rcases py_int (getJ result "count") with _ | n
  · exact le_refl (1 : Int)
  · exact le_max_left 1 _

theorem derive_from_payload_ge_one (record : RawFetchRecord) (payload : Json) :
    1 ≤ derive_from_payload record payload := by
  rcases payload with _ | _ | _ | _ | _ | _ | fields <;>
    simp only [derive_from_payload] <;>
    try exact le_refl (1 : Int)
  rcases h : getJ fields "result" with _ | _ | _ | _ | _ | _ | result <;>
    simp only [h] <;>
    try exact le_refl (1 : Int)
  exact derive_count_pages_ge_one record result

theorem derive_total_pages_ge_one (record : RawFetchRecord) :
    1 ≤ derive_total_pages record := by
  unfold derive_total_pages
  rcases record.response_body with _ | p
  · exact le_refl (1 : Int)
  · rcases p with _ | payload
    · exact le_refl (1 : Int)
    · exact derive_from_payload_ge_one record payload

/-- C2: a page-1 record whose body parses to a dict with a dict `result`
holding an `int`-coercible `count` derives `max(1, ceil(count / page_size))`
pages, where the page size is the `int`-coercion of the request body's
`size` field floored at 1 (10 when the field is absent the default applies,
or the coercion fails); every other shape derives exactly 1 page. -/
theorem C2_derive_total_pages (record : RawFetchRecord) :
    (∀ fields result,
        record.response_body = Body.someText (some (Json.obj fields)) →
        getJ fields "result" = Json.obj result →
        (∀ n : Int, py_int (getJ result "count") = some n →
            derive_total_pages record =
              max 1 ⌈(n : ℚ) / ((page_size_of record : Int) : ℚ)⌉) ∧
        (py_int (getJ result "count") = none → derive_total_pages record = 1)) ∧
    (∀ fields,
        record.response_body = Body.someText (some (Json.obj fields)) →
        (∀ result, getJ fields "result" ≠ Json.obj result) →
        derive_total_pages record = 1) ∧
    (∀ payload,
        record.response_body = Body.someText (some payload) →
        (∀ fields, payload ≠ Json.obj fields) →
        derive_total_pages record = 1) ∧
    ((∀ payload, record.response_body ≠ Body.someText (some payload)) →
        derive_total_pages record = 1) ∧
    (∀ n : Int, py_int (getJD record.request_body "size" (Json.int 10)) = some n →
        page_size_of record = max n 1) ∧
    (py_int (getJD record.request_body "size" (Json.int 10)) = none →
        page_size_of record = 10) := by
  have hbody : ∀ payload, record.response_body = Body.someText (some payload) →
      derive_total_pages record = derive_from_payload record payload := by
    intro payload hb
    unfold derive_total_pages
    rw [hb]
  refine ⟨?_, ?_, ?_, ?_, ?_, ?_⟩
  · intro fields result hb hr
    have hfp : derive_total_pages record = derive_count_pages record result := by
      rw [hbody _ hb]
      simp only [derive_from_payload]
      rw [hr]
    constructor
    · intro n hc
      rw [hfp]
      unfold derive_count_pages
      rw [hc]
    · intro hc
      rw [hfp]
      unfold derive_count_pages
      rw [hc]
  · intro fields hb hr
    rw [hbody _ hb]
    simp only [derive_from_payload]
  · intro payload hb hne
    rw [hbody _ hb]
    rcases payload with _ | _ | _ | _ | _ | _ | fields
    case obj => exact absurd rfl (hne fields)
    all_goals rfl
  · intro hne
    unfold derive_total_pages
    rcases hb : record.response_body with _ | p
    · rfl
    · rcases p with _ | payload
      · rfl
      · exact absurd hb (hne payload)
  · intro n hc
    unfold page_size_of
    rw [hc]
  · intro hc
    unfold page_size_of
    rw [hc]

/-- A concrete page-1 record: `count = 1005`, request `size = "10"`. -/
def rec_c2 : RawFetchRecord :=
  { ts_utc := 0, market := "m", fiat := "RUB", side := Side.SELL, page := 1,
    request_url := "u", request_method := "POST", request_headers := [],
    request_body := [("size", Json.str "10")],
    http_status := some 200,
    response_body := Body.someText (some
      (Json.obj [("result", Json.obj [("count", Json.int 1005)])])),
    error := none }

/-- C2 witness: the concrete record with `count = 1005` and `size = "10"`. -/
theorem C2_witness :
    py_int (getJ [("count", Json.int 1005)] "count") = some 1005 ∧
    derive_total_pages rec_c2 =
      max 1 ⌈((1005 : Int) : ℚ) / ((page_size_of rec_c2 : Int) : ℚ)⌉ :=
  ⟨rfl,
   ((C2_derive_total_pages rec_c2).1 [("result", Json.obj [("count", Json.int 1005)])]
      [("count", Json.int 1005)] rfl rfl).1 1005 rfl⟩

theorem intRangeAux_length (n : Nat) (lo : Int) : (intRangeAux n lo).length = n := by
  induction n generalizing lo with
  | zero => rfl
  | succ m ih => simp [intRangeAux, ih]

/-- C7: per market, the set of pages fetched in one cycle is page 1 plus
`range(2, pages_to_fetch + 1)`; its size never exceeds the derived total,
nor a positive manual cap, nor the safety cap, and a budget of 1 or less
fetches no page beyond page 1. -/
theorem C7_fetched_pages_bounded (record : RawFetchRecord) (max_pages : Int) :
    ((fetched_pages (derive_total_pages record) max_pages).length : Int) ≤
        derive_total_pages record ∧
    (0 < max_pages →
        ((fetched_pages (derive_total_pages record) max_pages).length : Int) ≤ max_pages) ∧
    ((fetched_pages (derive_total_pages record) max_pages).length : Int) ≤ safety_cap ∧
    (pages_to_fetch (derive_total_pages record) max_pages ≤ 1 →
        fetched_pages (derive_total_pages record) max_pages = [1]) := by
  have ht : 1 ≤ derive_total_pages record := derive_total_pages_ge_one record
  have hsc : safety_cap = 200 := rfl
  have hbounds :
      pages_to_fetch (derive_total_pages record) max_pages ≤ derive_total_pages record ∧
      (0 < max_pages →
        pages_to_fetch (derive_total_pages record) max_pages ≤ max_pages) ∧
      pages_to_fetch (derive_total_pages record) max_pages ≤ 200 ∧
      1 ≤ pages_to_fetch (derive_total_pages record) max_pages := by
    unfold pages_to_fetch safety_cap
    split <;> omega
  obtain ⟨hb1, hb2, hb3, hb4⟩ := hbounds
  have hlen : ((fetched_pages (derive_total_pages record) max_pages).length : Int) =
      max 1 (pages_to_fetch (derive_total_pages record) max_pages) := by
    unfold fetched_pages extra_pages intRange
    by_cases h : pages_to_fetch (derive_total_pages record) max_pages ≤ 1
    · rw [if_pos h]
      simp only [List.length_cons, List.length_nil]
      omega
    · rw [if_neg h]
      simp only [List.length_cons, intRangeAux_length]
      omega
  refine ⟨by omega, fun hmp => ?_, by omega, fun hc => ?_⟩
  · have := hb2 hmp
    omega
  · unfold fetched_pages extra_pages
    rw [if_pos hc]

/-- C7 witness: with a parse-failing page-1 body the derived total is 1,
and a manual cap of 5 keeps the fetched pages to just page 1. -/
theorem C7_witness :
    (0 : Int) < 5 ∧
    ((fetched_pages
        (derive_total_pages
          { ts_utc := 0, market := "m", fiat := "RUB", side := Side.SELL, page := 1,
            request_url := "u", request_method := "POST", request_headers := [],
            request_body := [], http_status := some 200,
            response_body := Body.someText none, error := none }) 5).length : Int) ≤ 5 :=
  ⟨by omega,
   (C7_fetched_pages_bounded
      { ts_utc := 0, market := "m", fiat := "RUB", side := Side.SELL, page := 1,
        request_url := "u", request_method := "POST", request_headers := [],
        request_body := [], http_status := some 200,
        response_body := Body.someText none, error := none } 5).2.1 (by omega)⟩

/-- C8: sanitized headers never contain a header whose lowercased name is
sensitive, all non-sensitive headers pass through unchanged, and the
record built by `fetch_market_page` stores exactly the sanitized
headers. -/
theorem C8_sanitized_headers (headers : List (String × String)) :
    (∀ kv ∈ sanitize_headers headers, pyLower kv.1 ∉ SENSITIVE_HEADERS) ∧
    (∀ kv ∈ headers, pyLower kv.1 ∉ SENSITIVE_HEADERS → kv ∈ sanitize_headers headers) ∧
    (∀ (ctx : FetchCtx) (out : ReqOutcome), ctx.headers = headers →
        (fetch_market_page ctx out).request_headers = sanitize_headers headers) := by
  refine ⟨?_, ?_, ?_⟩
  · intro kv hkv
    rw [sanitize_headers, List.mem_filter] at hkv
    simpa using hkv.2
  · intro kv hkv hs
    rw [sanitize_headers, List.mem_filter]
    exact ⟨hkv, by simpa using hs⟩
  · intro ctx out hctx
    simp [fetch_market_page, hctx]

/-- C8 witness: `Authorization` (any casing) is stripped, `Accept`
survives. -/
theorem C8_witness :
    pyLower "Accept" ∉ SENSITIVE_HEADERS ∧
    ("Accept", "json") ∈ sanitize_headers [("Authorization", "tok"), ("Accept", "json")] :=
  ⟨by decide,
   (C8_sanitized_headers [("Authorization", "tok"), ("Accept", "json")]).2.1
     ("Accept", "json") (by simp) (by decide)⟩

/-- C9: every record built by `fetch_market_page` has exactly one of
{response body, error}: a completed request yields a body and a status
and no error; a raised request yields an error and neither body nor
status. -/
theorem C9_fetch_record_exactly_one (ctx : FetchCtx) (out : ReqOutcome) :
    ((fetch_market_page ctx out).error = none ∧
     (fetch_market_page ctx out).response_body ≠ Body.absent ∧
     (fetch_market_page ctx out).http_status ≠ none) ∨
    ((fetch_market_page ctx out).error ≠ none ∧
     (fetch_market_page ctx out).response_body = Body.absent ∧
     (fetch_market_page ctx out).http_status = none) := by
  rcases out with ⟨body, status⟩ | e
  · left
    refine ⟨rfl, ?_, ?_⟩ <;> simp [fetch_market_page]
  · right
    exact ⟨by simp [fetch_market_page], rfl, rfl⟩

/-! ### Python `min`/`max` with key: first extremum wins ties -/

theorem pyMin_cons {α : Type} (key : α → ℚ) (x y : α) (ys : List α) :
    pyMin key x (y :: ys) = pyMin key (if key y < key x then y else x) ys := rfl

theorem pyMin_key_le_start {α : Type} (key : α → ℚ) (x : α) (xs : List α) :
    key (pyMin key x xs) ≤ key x := by
  induction xs generalizing x with
  | nil => exact le_refl _
  | cons y ys ih =>
    rw [pyMin_cons]
    by_cases h : key y < key x
    · rw [if_pos h]
      exact le_trans (ih y) (le_of_lt h)
    · rw [if_neg h]
      exact ih x

theorem pyMin_key_le {α : Type} (key : α → ℚ) (x : α) (xs : List α) :
    ∀ o ∈ xs, key (pyMin key x xs) ≤ key o := by
  induction xs generalizing x with
  | nil => intro o ho; exact absurd ho (List.not_mem_nil o)
  | cons y ys ih =>
    intro o ho
    rw [pyMin_cons]
    rcases List.mem_cons.mp ho with rfl | hmem
    · by_cases h : key o < key x
      · rw [if_pos h]
        exact pyMin_key_le_start key o ys
      · rw [if_neg h]
        exact le_trans (pyMin_key_le_start key x ys) (le_of_not_lt h)
    · by_cases h : key y < key x
      · rw [if_pos h]; exact ih y o hmem
      · rw [if_neg h]; exact ih x o hmem

theorem pyMin_mem {α : Type} (key : α → ℚ) (x : α) (xs : List α) :
    pyMin key x xs ∈ x :: xs := by
  induction xs generalizing x with
  | nil => exact List.mem_singleton.mpr rfl
  | cons y ys ih =>
    rw [pyMin_cons]
    by_cases h : key y < key x
    · rw [if_pos h]
      exact List.mem_cons_of_mem x (ih y)
    · rw [if_neg h]
      rcases List.mem_cons.mp (ih x) with hx | hmem
      · rw [hx]
        exact List.mem_cons_self x (y :: ys)
      · exact List.mem_cons_of_mem x (List.mem_cons_of_mem y hmem)

theorem pyMin_find {α : Type} (key : α → ℚ) (x : α) (xs : List α) :
    (x :: xs).find? (fun o => key o == key (pyMin key x xs)) = some (pyMin key x xs) := by
  induction xs generalizing x with
  | nil => simp [pyMin, List.find?]
  | cons y ys ih =>
    rw [pyMin_cons]
    by_cases h : key y < key x
    · rw [if_pos h]
      have hm : key (pyMin key y ys) ≤ key y := pyMin_key_le_start key y ys
      have hx : (key x == key (pyMin key y ys)) = false := by
        rw [beq_eq_false_iff_ne]
        intro he
        rw [he] at h
        exact absurd (lt_of_lt_of_le h hm) (lt_irrefl _)
      rw [List.find?_cons]
      simp only [hx]
      exact ih y
    · rw [if_neg h]
      have hmx : key (pyMin key x ys) ≤ key x := pyMin_key_le_start key x ys
      have hxy : key x ≤ key y := le_of_not_lt h
      by_cases hke : key x = key (pyMin key x ys)
      · have hpos : (key x == key (pyMin key x ys)) = true := by
          rw [beq_iff_eq]
          exact hke
        have hxm : x = pyMin key x ys := by
          have hi := ih x
          rw [List.find?_cons] at hi
          simp only [hpos] at hi
          exact Option.some.inj hi
        rw [List.find?_cons]
        simp only [hpos]
        exact congrArg some hxm
      · have hneg : (key x == key (pyMin key x ys)) = false := by
          rw [beq_eq_false_iff_ne]
          exact hke
        have hnegy : (key y == key (pyMin key x ys)) = false := by
          rw [beq_eq_false_iff_ne]
          intro he
          exact hke (le_antisymm (he ▸ hxy) hmx)
        rw [List.find?_cons]
        simp only [hneg]
        rw [List.find?_cons]
        simp only [hnegy]
        have hi := ih x
        rw [List.find?_cons] at hi
        simp only [hneg] at hi
        exact hi

theorem pyMax_cons {α : Type} (key : α → ℚ) (x y : α) (ys : List α) :
    pyMax key x (y :: ys) = pyMax key (if key x < key y then y else x) ys := rfl

theorem pyMax_key_ge_start {α : Type} (key : α → ℚ) (x : α) (xs : List α) :
    key x ≤ key (pyMax key x xs) := by
  induction xs generalizing x with
  | nil => exact le_refl _
  | cons y ys ih =>
    rw [pyMax_cons]
    by_cases h : key x < key y
    · rw [if_pos h]
      exact le_trans (le_of_lt h) (ih y)
    · rw [if_neg h]
      exact ih x

theorem pyMax_key_ge {α : Type} (key : α → ℚ) (x : α) (xs : List α) :
    ∀ o ∈ xs, key o ≤ key (pyMax key x xs) := by
  induction xs generalizing x with
  | nil => intro o ho; exact absurd ho (List.not_mem_nil o)
  | cons y ys ih =>
    intro o ho
    rw [pyMax_cons]
    rcases List.mem_cons.mp ho with rfl | hmem
    · by_cases h : key x < key o
      · rw [if_pos h]
        exact pyMax_key_ge_start key o ys
      · rw [if_neg h]
        exact le_trans (le_of_not_lt h) (pyMax_key_ge_start key x ys)
    · by_cases h : key x < key y
      · rw [if_pos h]; exact ih y o hmem
      · rw [if_neg h]; exact ih x o hmem

theorem pyMax_mem {α : Type} (key : α → ℚ) (x : α) (xs : List α) :
    pyMax key x xs ∈ x :: xs := by
  induction xs generalizing x with
  | nil => exact List.mem_singleton.mpr rfl
  | cons y ys ih =>
    rw [pyMax_cons]
    by_cases h : key x < key y
    · rw [if_pos h]
      exact List.mem_cons_of_mem x (ih y)
    · rw [if_neg h]
      rcases List.mem_cons.mp (ih x) with hx | hmem
      · rw [hx]
        exact List.mem_cons_self x (y :: ys)
      · exact List.mem_cons_of_mem x (List.mem_cons_of_mem y hmem)

theorem pyMax_find {α : Type} (key : α → ℚ) (x : α) (xs : List α) :
    (x :: xs).find? (fun o => key o == key (pyMax key x xs)) = some (pyMax key x xs) := by
  induction xs generalizing x with
  | nil => simp [pyMax, List.find?]
  | cons y ys ih =>
    rw [pyMax_cons]
    by_cases h : key x < key y
    · rw [if_pos h]
      have hm : key y ≤ key (pyMax key y ys) := pyMax_key_ge_start key y ys
      have hx : (key x == key (pyMax key y ys)) = false := by
        rw [beq_eq_false_iff_ne]
        intro he
        rw [he] at h
        exact absurd (lt_of_le_of_lt hm h) (lt_irrefl _)
      rw [List.find?_cons]
      simp only [hx]
      exact ih y
    · rw [if_neg h]
      have hmx : key x ≤ key (pyMax key x ys) := pyMax_key_ge_start key x ys
      have hxy : key y ≤ key x := le_of_not_lt h
      by_cases hke : key x = key (pyMax key x ys)
      · have hpos : (key x == key (pyMax key x ys)) = true := by
          rw [beq_iff_eq]
          exact hke
        have hxm : x = pyMax key x ys := by
          have hi := ih x
          rw [List.find?_cons] at hi
          simp only [hpos] at hi
          exact Option.some.inj hi
        rw [List.find?_cons]
        simp only [hpos]
        exact congrArg some hxm
      · have hneg : (key x == key (pyMax key x ys)) = false := by
          rw [beq_eq_false_iff_ne]
          exact hke
        have hnegy : (key y == key (pyMax key x ys)) = false := by
          rw [beq_eq_false_iff_ne]
          intro he
          exact hke (le_antisymm hmx (he ▸ hxy))
        rw [List.find?_cons]
        simp only [hneg]
        rw [List.find?_cons]
        simp only [hnegy]
        have hi := ih x
        rw [List.find?_cons] at hi
        simp only [hneg] at hi
        exact hi

/-- C1: `best_single` considers exactly the offers passing the constraint
checks with the direction's side and executability window; it returns an
offer of minimum unit price for `buy_usdt` and maximum unit price for
`sell_usdt`, ties broken in favour of the first candidate in input
order (witnessed by `find?` over the order-preserving filter). -/
theorem C1_best_single_selection (offers : List Offer) (amount : ℚ) (c : Constraints) :
    (∀ direction, best_single offers direction amount c = none ↔
        offers.filter (cand_pred direction amount c) = []) ∧
    (∀ o : Offer, cand_pred Direction.buy_usdt amount c o = true ↔
        (passes_constraints o c = true ∧ o.side = Side.SELL ∧
         o.min_fiat ≤ amount ∧ amount ≤ o.max_fiat)) ∧
    (∀ o : Offer, cand_pred Direction.sell_usdt amount c o = true ↔
        (passes_constraints o c = true ∧ o.side = Side.BUY ∧
         o.min_fiat ≤ amount * o.price_fiat_per_usdt ∧
         amount * o.price_fiat_per_usdt ≤ o.max_fiat)) ∧
    (∀ r, best_single offers Direction.buy_usdt amount c = some r →
        r.offer ∈ offers.filter (cand_pred Direction.buy_usdt amount c) ∧
        r.price_fiat_per_usdt = r.offer.price_fiat_per_usdt ∧
        (∀ o ∈ offers.filter (cand_pred Direction.buy_usdt amount c),
            r.offer.price_fiat_per_usdt ≤ o.price_fiat_per_usdt) ∧
        (offers.filter (cand_pred Direction.buy_usdt amount c)).find?
            (fun o => o.price_fiat_per_usdt == r.offer.price_fiat_per_usdt) =
          some r.offer) ∧
    (∀ r, best_single offers Direction.sell_usdt amount c = some r →
        r.offer ∈ offers.filter (cand_pred Direction.sell_usdt amount c) ∧
        r.price_fiat_per_usdt = r.offer.price_fiat_per_usdt ∧
        (∀ o ∈ offers.filter (cand_pred Direction.sell_usdt amount c),
            o.price_fiat_per_usdt ≤ r.offer.price_fiat_per_usdt) ∧
        (offers.filter (cand_pred Direction.sell_usdt amount c)).find?
            (fun o => o.price_fiat_per_usdt == r.offer.price_fiat_per_usdt) =
          some r.offer) := by
  have hnone : ∀ direction, best_single offers direction amount c = none ↔
      offers.filter (cand_pred direction amount c) = [] := by
    intro direction
    unfold best_single
    rcases hf : offers.filter (cand_pred direction amount c) with _ | ⟨x, xs⟩
    · simp
    · simp
  refine ⟨hnone, ?_, ?_, ?_, ?_⟩
  · intro o
    simp [cand_pred, executable_for_fiat_amount, and_assoc]
  · intro o
    simp [cand_pred, executable_for_usdt_amount, and_assoc]
  · intro r hr
    rcases hf : offers.filter (cand_pred Direction.buy_usdt amount c) with _ | ⟨x, xs⟩
    · rw [(hnone Direction.buy_usdt).mpr hf] at hr
      exact absurd hr (by simp)
    · have hval : best_single offers Direction.buy_usdt amount c =
          some { offer := pyMin Offer.price_fiat_per_usdt x xs,
                 price_fiat_per_usdt :=
                   (pyMin Offer.price_fiat_per_usdt x xs).price_fiat_per_usdt } := by
        unfold best_single
        rw [hf]
      rw [hval] at hr
      have hre : r = { offer := pyMin Offer.price_fiat_per_usdt x xs,
                       price_fiat_per_usdt :=
                         (pyMin Offer.price_fiat_per_usdt x xs).price_fiat_per_usdt } :=
        (Option.some.inj hr).symm
      subst hre
      refine ⟨?_, rfl, ?_, ?_⟩
      · exact pyMin_mem Offer.price_fiat_per_usdt x xs
      · intro o ho
        rcases List.mem_cons.mp ho with rfl | hmem
        · exact pyMin_key_le_start Offer.price_fiat_per_usdt o xs
        · exact pyMin_key_le Offer.price_fiat_per_usdt x xs o hmem
      · exact pyMin_find Offer.price_fiat_per_usdt x xs
  · intro r hr
    rcases hf : offers.filter (cand_pred Direction.sell_usdt amount c) with _ | ⟨x, xs⟩
    · rw [(hnone Direction.sell_usdt).mpr hf] at hr
      exact absurd hr (by simp)
    · have hval : best_single offers Direction.sell_usdt amount c =
          some { offer := pyMax Offer.price_fiat_per_usdt x xs,
                 price_fiat_per_usdt :=
                   (pyMax Offer.price_fiat_per_usdt x xs).price_fiat_per_usdt } := by
        unfold best_single
        rw [hf]
      rw [hval] at hr
      have hre : r = { offer := pyMax Offer.price_fiat_per_usdt x xs,
                       price_fiat_per_usdt :=
                         (pyMax Offer.price_fiat_per_usdt x xs).price_fiat_per_usdt } :=
        (Option.some.inj hr).symm
      subst hre
      refine ⟨?_, rfl, ?_, ?_⟩
      · exact pyMax_mem Offer.price_fiat_per_usdt x xs
      · intro o ho
        rcases List.mem_cons.mp ho with rfl | hmem
        · exact pyMax_key_ge_start Offer.price_fiat_per_usdt o xs
        · exact pyMax_key_ge Offer.price_fiat_per_usdt x xs o hmem
      · exact pyMax_find Offer.price_fiat_per_usdt x xs

/-- Empty constraint set (all defaults). -/
def c0 : Constraints := {}

/-- A SELL offer at unit price `p`, window `[1, 1000]`, no optional data. -/
def oB (p : ℚ) : Offer :=
  { ts_utc := 0, fiat := "RUB", side := Side.SELL, price_fiat_per_usdt := p,
    min_fiat := 1, max_fiat := 1000, payment_methods := [], is_merchant := none,
    rating := none, advertiser_key := none, market := none, page := none }

def offers_w : List Offer := [oB 31, oB 29, oB 30]

/-- C1 witness: among SELL offers priced 31, 29, 30 (all executable at
amount 100), buying picks 29. -/
theorem C1_witness :
    best_single offers_w Direction.buy_usdt 100 c0 =
        some { offer := oB 29, price_fiat_per_usdt := (29 : ℚ) } ∧
    (oB 29).price_fiat_per_usdt ≤ (oB 31).price_fiat_per_usdt := by
  have hr : best_single offers_w Direction.buy_usdt 100 c0 =
      some { offer := oB 29, price_fiat_per_usdt := (29 : ℚ) } := by rfl
  have h := (C1_best_single_selection offers_w 100 c0).2.2.2.1
      { offer := oB 29, price_fiat_per_usdt := (29 : ℚ) } hr
  refine ⟨hr, ?_⟩
  have h31 : oB 31 ∈ offers_w.filter (cand_pred Direction.buy_usdt 100 c0) := by decide
  exact h.2.2.1 (oB 31) h31

/-- C6: `_passes_constraints` excludes exactly: non-known-merchants under
`merchant_only`, offers with a known rating below the minimum (unknown
rating never excluded by this rule), and offers sharing no payment
method with a truthy (non-empty) accepted set; and `best_single` is
absent exactly when no offer survives the candidate filter. -/
theorem C6_constraint_filtering (offer : Offer) (c : Constraints) :
    (passes_constraints offer c = true ↔
      ((c.merchant_only = true → offer.is_merchant = some true) ∧
       (∀ r : ℚ, offer.rating = some r → c.min_rating ≤ r) ∧
       (∀ pm : List String, c.payment_methods_any = some pm → pm ≠ [] →
          ∃ m ∈ offer.payment_methods, m ∈ pm))) ∧
    (∀ (offers : List Offer) (direction : Direction) (amount : ℚ),
        best_single offers direction amount c = none ↔
        offers.filter (cand_pred direction amount c) = []) := by
  constructor
  · unfold passes_constraints
    split_ifs with h1 h2 h3
    · simp only [Bool.false_eq_true, false_iff]
      simp only [Bool.and_eq_true, Bool.not_eq_true', beq_eq_false_iff_ne] at h1
      rintro ⟨hm, _, _⟩
      exact h1.2 (hm h1.1)
    · simp only [Bool.false_eq_true, false_iff]
      rintro ⟨_, hrat, _⟩
      rcases hr : offer.rating with _ | r
      · rw [hr] at h2
        simp at h2
      · rw [hr] at h2
        simp only [decide_eq_true_eq] at h2
        exact absurd (hrat r hr) (not_le.mpr h2)
    · simp only [Bool.false_eq_true, false_iff]
      simp only [Bool.and_eq_true, Bool.not_eq_true'] at h3
      rintro ⟨_, _, hp⟩
      rcases hpm : c.payment_methods_any with _ | l
      · rw [hpm] at h3
        simp [truthy_pm] at h3
      · rw [hpm] at h3
        simp only [truthy_pm, Bool.not_eq_true', List.isEmpty_eq_false] at h3
        obtain ⟨m, hmm, hml⟩ := hp l hpm h3.1
        have hcont := List.any_eq_false.mp h3.2 m hmm
        simp [pm_member] at hcont
        exact hcont hml
    · simp only [true_iff]
      refine ⟨?_, ?_, ?_⟩
      · intro hmo
        by_contra hne
        exact h1 (by simp [hmo, hne])
      · intro r hr
        by_contra hlt
        exact h2 (by rw [hr]; simp [not_le.mp hlt])
      · intro pm hpm hne
        by_contra hno
        push_neg at hno
        refine h3 ?_
        rw [hpm]
        simp only [truthy_pm, pm_member, Bool.and_eq_true, Bool.not_eq_true',
          List.isEmpty_eq_false]
        refine ⟨hne, List.any_eq_false.mpr ?_⟩
        intro m hmm
        simp [hno m hmm]
  · intro offers direction amount
    unfold best_single
    rcases hf : offers.filter (cand_pred direction amount c) with _ | ⟨x, xs⟩
    · simp
    · simp

/-- C6 witness: an offer with no optional data passes the empty
constraint set, and `best_single` on no offers is absent. -/
theorem C6_witness :
    passes_constraints (oB 31) c0 = true ∧
    best_single [] Direction.buy_usdt 5 c0 = none := by
  have h := C6_constraint_filtering (oB 31) c0
  refine ⟨h.1.mpr ⟨?_, ?_, ?_⟩, (h.2 [] Direction.buy_usdt 5).mpr rfl⟩
  · intro hmo
    exact absurd hmo (by decide)
  · intro r hr
    exact absurd hr (by simp [oB])
  · intro pm hpm
    exact absurd hpm (by simp [c0])

/-! ### Extractor theorems -/

/-- A list whose first-5-dicts qualifying count is at most 1 is never
accepted in place. -/
theorem accept_list_none (xs : List Json)
    (hq : qual_count (xs.filterMap asObj?) ≤ 1) : accept_list xs = none := by
  simp only [accept_list]
  split_ifs with h1 h2
  · simp only [Bool.and_eq_true, decide_eq_true_eq] at h2
    omega
  · rfl
  · rfl

/-- C3: the depth-bounded search accepts a list only when at least 2 of
its first 5 dict elements look like offers (returning exactly the dict
elements); a list with 1 or fewer qualifying items is passed over and
the search continues into its elements at one less depth; depth 0 finds
nothing; and when the well-known shapes miss, the extractor is exactly
the depth-6 search. -/
theorem C3_heuristic_acceptance (xs : List Json) (d : Nat) (j : Json) :
    (∀ ds, accept_list xs = some ds →
        2 ≤ qual_count (xs.filterMap asObj?) ∧ ds = xs.filterMap asObj?) ∧
    (qual_count (xs.filterMap asObj?) ≤ 1 →
        find (d + 1) (Json.arr xs) = find_list d xs) ∧
    find 0 j = none ∧
    (well_known_items j = none → extract_offer_items j = (find 6 j).getD []) := by
  refine ⟨?_, ?_, ?_, ?_⟩
  · intro ds hacc
    simp only [accept_list] at hacc
    split_ifs at hacc with h1 h2
    · simp only [Bool.and_eq_true, decide_eq_true_eq] at h2
      exact ⟨h2.2, (Option.some.inj hacc).symm⟩
  · intro hq
    simp only [find, accept_list_none xs hq]
  · simp [find]
  · intro hwk
    unfold extract_offer_items
    rw [hwk]

/-- A list with exactly one offer-looking dict among its first dicts. -/
def xs_w3 : List Json := [Json.obj [("price", Json.int 1)], Json.obj []]

/-- C3 witness: a two-dict list with a single qualifying element is
rejected and searched element-wise. -/
theorem C3_witness :
    qual_count (xs_w3.filterMap asObj?) ≤ 1 ∧
    find 1 (Json.arr xs_w3) = find_list 0 xs_w3 :=
  ⟨by decide, (C3_heuristic_acceptance xs_w3 0 Json.null).2.1 (by decide)⟩

/-- `parse_item` on an item whose three required coercions succeed. -/
theorem parse_item_some (record : RawFetchRecord) (item : JObj) (p mi ma : ℚ)
    (hp : to_float (resolve_field (adv_of item) item PRICE_KEYS) = some p)
    (hmi : to_float (resolve_field (adv_of item) item MIN_KEYS) = some mi)
    (hma : to_float (resolve_field (adv_of item) item MAX_KEYS) = some ma) :
    parse_item record item = some
      { ts_utc := record.ts_utc, fiat := record.fiat, side := record.side,
        price_fiat_per_usdt := p, min_fiat := mi, max_fiat := ma,
        payment_methods := extract_payment_methods item,
        is_merchant :=
          match resolve_field (advertiser_of item) item MERCHANT_KEYS with
          | Json.null => none
          | raw => some (pyTruthy raw),
        rating := to_float (resolve_field (advertiser_of item) item RATING_KEYS),
        advertiser_key :=
          match resolve_field (advertiser_of item) item ADVERTISER_KEYS with
          | Json.null => none
          | raw => some (pyStr raw),
        market := some record.market, page := some record.page } := by
  simp only [parse_item]
  rw [hp, hmi, hma]

/-- `parse_item` drops the item as soon as one required coercion fails. -/
theorem parse_item_none (record : RawFetchRecord) (item : JObj)
    (h : to_float (resolve_field (adv_of item) item PRICE_KEYS) = none ∨
         to_float (resolve_field (adv_of item) item MIN_KEYS) = none ∨
         to_float (resolve_field (adv_of item) item MAX_KEYS) = none) :
    parse_item record item = none := by
  simp only [parse_item]
  rcases hp : to_float (resolve_field (adv_of item) item PRICE_KEYS) with _ | p <;>
    rcases hmi : to_float (resolve_field (adv_of item) item MIN_KEYS) with _ | mi <;>
      rcases hma : to_float (resolve_field (adv_of item) item MAX_KEYS) with _ | ma <;>
        first
          | rfl
          | (rw [hp, hmi, hma] at h
             rcases h with h | h | h <;> exact Option.noConfusion h)

/-- When the payment field is neither a list nor a dict, no methods are
extracted. -/
theorem extract_payment_methods_empty (item : JObj)
    (h : match first_present item PAYMENT_KEYS with
         | Json.arr _ => False
         | Json.obj _ => False
         | _ => True) :
    extract_payment_methods item = [] := by
  unfold extract_payment_methods
  rcases hraw : first_present item PAYMENT_KEYS with _ | _ | _ | _ | _ | xs | fs
  case arr =>
    rw [hraw] at h
    exact absurd h (by simp)
  case obj =>
    rw [hraw] at h
    exact absurd h (by simp)
  all_goals rfl

/-- C4 (amended): an item is materialized iff price, minimum and maximum,
each resolved by the alias chain (advertisement lookup first, falling
back to the top-level item when the advertisement's resolved value is
falsy), coerce to numbers; on a materialized offer a `None`-resolved
merchant flag is unknown, a coercion-failing rating is unknown, and an
unrecognized payment shape yields no methods; per-record, the offers are
exactly the per-item survivors in order. -/
theorem C4_required_fields (record : RawFetchRecord) (item : JObj) :
    ((parse_item record item).isSome = true ↔
      ((to_float (resolve_field (adv_of item) item PRICE_KEYS)).isSome = true ∧
       (to_float (resolve_field (adv_of item) item MIN_KEYS)).isSome = true ∧
       (to_float (resolve_field (adv_of item) item MAX_KEYS)).isSome = true)) ∧
    (∀ o : Offer, parse_item record item = some o →
      (resolve_field (advertiser_of item) item MERCHANT_KEYS = Json.null →
          o.is_merchant = none) ∧
      (to_float (resolve_field (advertiser_of item) item RATING_KEYS) = none →
          o.rating = none) ∧
      ((match first_present item PAYMENT_KEYS with
        | Json.arr _ => False
        | Json.obj _ => False
        | _ => True) → o.payment_methods = [])) ∧
    (∀ payload, record.response_body = Body.someText (some payload) →
        parse_raw_fetch record = (extract_offer_items payload).filterMap (parse_item record)) := by
  refine ⟨?_, ?_, ?_⟩
  · constructor
    · intro hs
      rcases hp : to_float (resolve_field (adv_of item) item PRICE_KEYS) with _ | p
      · rw [parse_item_none record item (Or.inl hp)] at hs
        exact absurd hs (by simp)
      · rcases hmi : to_float (resolve_field (adv_of item) item MIN_KEYS) with _ | mi
        · rw [parse_item_none record item (Or.inr (Or.inl hmi))] at hs
          exact absurd hs (by simp)
        · rcases hma : to_float (resolve_field (adv_of item) item MAX_KEYS) with _ | ma
          · rw [parse_item_none record item (Or.inr (Or.inr hma))] at hs
            exact absurd hs (by simp)
          · simp [hp, hmi, hma]
    · rintro ⟨h1, h2, h3⟩
      rcases hp : to_float (resolve_field (adv_of item) item PRICE_KEYS) with _ | p
      · rw [hp] at h1
        exact absurd h1 (by simp)
      · rcases hmi : to_float (resolve_field (adv_of item) item MIN_KEYS) with _ | mi
        · rw [hmi] at h2
          exact absurd h2 (by simp)
        · rcases hma : to_float (resolve_field (adv_of item) item MAX_KEYS) with _ | ma
          · rw [hma] at h3
            exact absurd h3 (by simp)
          · rw [parse_item_some record item p mi ma hp hmi hma]
            rfl
  · intro o ho
    rcases hp : to_float (resolve_field (adv_of item) item PRICE_KEYS) with _ | p
    · rw [parse_item_none record item (Or.inl hp)] at ho
      exact absurd ho (by simp)
    · rcases hmi : to_float (resolve_field (adv_of item) item MIN_KEYS) with _ | mi
      · rw [parse_item_none record item (Or.inr (Or.inl hmi))] at ho
        exact absurd ho (by simp)
      · rcases hma : to_float (resolve_field (adv_of item) item MAX_KEYS) with _ | ma
        · rw [parse_item_none record item (Or.inr (Or.inr hma))] at ho
          exact absurd ho (by simp)
        · rw [parse_item_some record item p mi ma hp hmi hma] at ho
          have ho' := (Option.some.inj ho).symm
          subst ho'
          refine ⟨?_, ?_, ?_⟩
          · intro hm
            rw [hm]
          · intro hrat
            exact hrat
          · intro hshape
            exact extract_payment_methods_empty item hshape
  · intro payload hb
    unfold parse_raw_fetch
    rw [hb]

/-- A record with no response body (only the request context matters for
per-item parsing). -/
def rec_pw : RawFetchRecord :=
  { ts_utc := 0, market := "m", fiat := "RUB", side := Side.SELL, page := 1,
    request_url := "u", request_method := "POST", request_headers := [],
    request_body := [], http_status := some 200, response_body := Body.absent,
    error := none }

/-- An item with all three required fields at top level. -/
def item_w4 : JObj :=
  [("price", Json.int 5), ("minAmount", Json.int 1), ("maxAmount", Json.int 10)]

/-- C4 witness: the complete item materializes. -/
theorem C4_witness :
    (to_float (resolve_field (adv_of item_w4) item_w4 PRICE_KEYS)).isSome = true ∧
    (parse_item rec_pw item_w4).isSome = true :=
  ⟨rfl, (C4_required_fields rec_pw item_w4).1.mpr ⟨rfl, rfl, rfl⟩⟩

/-- C4 counterexample item: price, min and max all present and coercible
in the advertisement sub-object, but the price is the falsy `0` and no
top-level alias exists. -/
def item_c4 : JObj :=
  [("adv", Json.obj
      [("price", Json.int 0), ("minAmount", Json.int 1), ("maxAmount", Json.int 10)])]

def rec_c4 : RawFetchRecord :=
  { ts_utc := 0, market := "m", fiat := "RUB", side := Side.SELL, page := 1,
    request_url := "u", request_method := "POST", request_headers := [],
    request_body := [], http_status := some 200,
    response_body := Body.someText (some (Json.obj
      [("result", Json.obj [("items", Json.arr [Json.obj item_c4])])])),
    error := none }

/-- C4 counterexample: all three required fields are present under an
alias and coercible (in the advertisement), yet the item yields no
offer, because the falsy advertisement price falls through to an absent
top-level price. -/
theorem C4_counterexample :
    parse_raw_fetch rec_c4 = [] ∧
    containsKey (adv_of item_c4) "price" = true ∧
    to_float (first_present (adv_of item_c4) PRICE_KEYS) = some 0 ∧
    to_float (first_present (adv_of item_c4) MIN_KEYS) = some 1 ∧
    to_float (first_present (adv_of item_c4) MAX_KEYS) = some 10 :=
  ⟨rfl, rfl, rfl, rfl, rfl⟩

/-- No alias key present means the lookup yields Python `None`. -/
theorem first_present_absent (d : JObj) (keys : List String)
    (h : ∀ k ∈ keys, containsKey d k = false) : first_present d keys = Json.null := by
  induction keys with
  | nil => rfl
  | cons k rest ih =>
    unfold first_present
    rw [h k (List.mem_cons_self k rest), if_neg (by simp)]
    exact ih (fun k' hk' => h k' (List.mem_cons_of_mem k hk'))

/-- C5 (amended): within one dict the first present alias key wins and
its stored value is taken verbatim; across the two sources, the
advertisement sub-object's lookup wins only when its resolved value is
truthy; a falsy advertisement value (including an explicitly stored
falsy value) makes the top-level item's lookup the result. -/
theorem C5_field_resolution (d adv item : JObj) (keys : List String) :
    (first_present d keys =
      (match keys.find? (fun k => containsKey d k) with
       | some k => getJ d k
       | none => Json.null)) ∧
    (resolve_field adv item keys =
      (if pyTruthy (first_present adv keys) = true then first_present adv keys
       else first_present item keys)) ∧
    (pyTruthy (first_present adv keys) = false →
        resolve_field adv item keys = first_present item keys) := by
  refine ⟨?_, rfl, ?_⟩
  · induction keys with
    | nil => rfl
    | cons k rest ih =>
      unfold first_present
      rw [List.find?_cons]
      by_cases h : containsKey d k
      · rw [if_pos h]
        simp only [h]
      · rw [if_neg h]
        simp only [Bool.not_eq_true] at h
        simp only [h]
        exact ih
  · intro h
    unfold resolve_field pyOr
    rw [h]
    simp

/-- C5 witness: a falsy advertisement value resolves to the item's
value. -/
theorem C5_witness :
    pyTruthy (first_present [("price", Json.int 0)] PRICE_KEYS) = false ∧
    resolve_field [("price", Json.int 0)] [("price", Json.int 7)] PRICE_KEYS =
      first_present [("price", Json.int 7)] PRICE_KEYS :=
  ⟨rfl,
   (C5_field_resolution [] [("price", Json.int 0)] [("price", Json.int 7)] PRICE_KEYS).2.2 rfl⟩

/-- C5 counterexample item: the advertisement contains a price alias with
the falsy value `0`, the item a price of `7`. -/
def item_c5 : JObj :=
  [("adv", Json.obj [("price", Json.int 0)]), ("price", Json.int 7),
   ("minAmount", Json.int 1), ("maxAmount", Json.int 10)]

def rec_c5 : RawFetchRecord :=
  { ts_utc := 0, market := "m", fiat := "RUB", side := Side.SELL, page := 1,
    request_url := "u", request_method := "POST", request_headers := [],
    request_body := [], http_status := some 200,
    response_body := Body.someText (some (Json.obj
      [("result", Json.obj [("items", Json.arr [Json.obj item_c5])])])),
    error := none }

/-- C5 counterexample: the advertisement contains a price alias, yet the
materialized offer's price comes from the top-level item (7, not the
advertisement's stored 0): the advertisement does not take priority
regardless of the value stored under the alias. -/
theorem C5_counterexample :
    (parse_raw_fetch rec_c5).map (fun o => o.price_fiat_per_usdt) = [(7 : ℚ)] ∧
    containsKey (adv_of item_c5) "price" = true ∧
    spec_first_from_adv_then_item (adv_of item_c5) item_c5 PRICE_KEYS = Json.int 0 ∧
    resolve_field (adv_of item_c5) item_c5 PRICE_KEYS = Json.int 7 ∧
    Json.int 7 ≠ Json.int 0 :=
  ⟨rfl, rfl, rfl, rfl, fun h => by cases h⟩

/-- C10: an advertiser sub-object whose merchant flag is explicitly
`false`, with no top-level merchant alias, materializes with an unknown
merchant flag (`none`), not a known `false`: the falsy stored value is
discarded by the `or`-chained alias lookup. -/
theorem C10_false_merchant_unknown (record : RawFetchRecord) (item : JObj) (o : Offer)
    (ho : parse_item record item = some o)
    (hadv : first_present (advertiser_of item) MERCHANT_KEYS = Json.bool false)
    (hitem : ∀ k ∈ MERCHANT_KEYS, containsKey item k = false) :
    o.is_merchant = none := by
  have hraw : resolve_field (advertiser_of item) item MERCHANT_KEYS = Json.null := by
    unfold resolve_field pyOr
    rw [hadv]
    simp only [pyTruthy, Bool.false_eq_true, if_false]
    exact first_present_absent item MERCHANT_KEYS hitem
  rcases hp : to_float (resolve_field (adv_of item) item PRICE_KEYS) with _ | p
  · rw [parse_item_none record item (Or.inl hp)] at ho
    exact absurd ho (by simp)
  · rcases hmi : to_float (resolve_field (adv_of item) item MIN_KEYS) with _ | mi
    · rw [parse_item_none record item (Or.inr (Or.inl hmi))] at ho
      exact absurd ho (by simp)
    · rcases hma : to_float (resolve_field (adv_of item) item MAX_KEYS) with _ | ma
      · rw [parse_item_none record item (Or.inr (Or.inr hma))] at ho
        exact absurd ho (by simp)
      · rw [parse_item_some record item p mi ma hp hmi hma] at ho
        have ho' := (Option.some.inj ho).symm
        subst ho'
        rw [hraw]

/-- An item with required fields and an advertiser explicitly flagged as
a non-merchant. -/
def item_w10 : JObj :=
  [("price", Json.int 5), ("minAmount", Json.int 1), ("maxAmount", Json.int 10),
   ("advertiser", Json.obj [("isMerchant", Json.bool false)])]

/-- C10 witness: the explicitly-false merchant flag materializes as
unknown. -/
theorem C10_witness :
    (parse_item rec_pw item_w10).map Offer.is_merchant = some none := by
  have hsome : (parse_item rec_pw item_w10).isSome = true := rfl
  cases hm : parse_item rec_pw item_w10 with
  | none =>
      rw [hm] at hsome
      exact absurd hsome (by simp)
  | some o =>
      have hmer := C10_false_merchant_unknown rec_pw item_w10 o hm rfl (by decide)
      simp [hmer]

end BitPeer
